import Mathlib

/-!
Verification development for the query-to-tickers entity-resolution pipeline.

The TypeScript source is shallowly embedded: JavaScript strings are Lean
`String`s (all inputs of interest are ASCII, where JS UTF-16 code-unit
length and Lean character length agree), JS `Array.prototype.sort` (stable
since ES2019) is a stable insertion sort over the comparator, JS `Map`s are
association lists with insert-or-overwrite-in-place semantics, exceptions
are `Except String`, and the module-level mutable maps of
`prioritize-by-geography.ts` are threaded as an explicit `ModuleState`.
External collaborators (the entity-extraction HTTP oracle, the securities
corpus fetch/cache, and the Fuse.js fuzzy search library) are parameters of
the functions that call them, mirroring the interface boundary of the spec.
-/

/-! ## JavaScript string primitives on `List Char` -/

/-- JS whitespace test for the `\s` regex class and `String.prototype.trim`
(the ASCII fragment: space, tab, LF, VT, FF, CR). -/
def isJsWs (c : Char) : Bool :=
  c = ' ' || c = '\t' || c = '\n' || (c.toNat = 11) || (c.toNat = 12) || c = '\r'

/-- Does the first list start with the second (pattern) list? -/
def listStartsWith [DecidableEq α] : List α → List α → Bool
  | _, [] => true
  | [], _ :: _ => false
  | a :: as, b :: bs => a = b && listStartsWith as bs

/-- Does the pattern occur as a contiguous sublist of the first argument?
Models `String.prototype.includes`. -/
def listContainsSub [DecidableEq α] : List α → List α → Bool
  | [], pat => pat.isEmpty
  | a :: as, pat => listStartsWith (a :: as) pat || listContainsSub as pat

/-- `hay.includes(needle)` -/
def strIncludes (hay needle : String) : Bool :=
  listContainsSub hay.data needle.data

/-- `s.startsWith(p)` -/
def strStartsWith (s p : String) : Bool :=
  listStartsWith s.data p.data

/-- `s.endsWith(p)` -/
def strEndsWith (s p : String) : Bool :=
  listStartsWith s.data.reverse p.data.reverse

/-- Does the string contain the given character? -/
def strContainsChar (s : String) (c : Char) : Bool :=
  s.data.contains c

/-- `s.substring(0, n)` -/
def strTake (s : String) (n : Nat) : String :=
  ⟨s.data.take n⟩

/-- `s.substring(n)` -/
def strDrop (s : String) (n : Nat) : String :=
  ⟨s.data.drop n⟩

/-- `s.toLowerCase()` (ASCII fragment, as in Lean core's `Char.toLower`). -/
def jsToLower (s : String) : String :=
  ⟨s.data.map Char.toLower⟩

/-- `s.toUpperCase()` (ASCII fragment). -/
def jsToUpper (s : String) : String :=
  ⟨s.data.map Char.toUpper⟩

/-- `s.trim()` -/
def jsTrim (s : String) : String :=
  ⟨((s.data.dropWhile isJsWs).reverse.dropWhile isJsWs).reverse⟩

/-- `s.replace(/^0+/, "")` -/
def stripLeadingZeros (s : String) : String :=
  ⟨s.data.dropWhile (fun c => c = '0')⟩

/-- `/^\d+$/.test(s)` -/
def isAllDigits (s : String) : Bool :=
  !s.data.isEmpty && s.data.all Char.isDigit

/-- Split on single-character separators, keeping empty pieces, as in
`s.split(";")` for a one-character separator string. -/
def splitCharAux (sep : Char) : List Char → List Char → List String
  | [], acc => [⟨acc.reverse⟩]
  | c :: cs, acc =>
    if c = sep then (⟨acc.reverse⟩ : String) :: splitCharAux sep cs []
    else splitCharAux sep cs (c :: acc)

/-- `s.split(sep)` for a one-character separator. -/
def splitChar (s : String) (sep : Char) : List String :=
  splitCharAux sep s.data []

mutual

/-- Helper for `splitWs`: currently inside a non-separator chunk. -/
def splitWsChunk : List Char → List Char → List String
  | [], acc => [⟨acc.reverse⟩]
  | c :: cs, acc =>
    if isJsWs c then (⟨acc.reverse⟩ : String) :: splitWsRun cs
    else splitWsChunk cs (c :: acc)

/-- Helper for `splitWs`: currently consuming a maximal whitespace run. -/
def splitWsRun : List Char → List String
  | [] => [""]
  | c :: cs => if isJsWs c then splitWsRun cs else splitWsChunk cs [c]

end

/-- `s.split(/\s+/)`: split on maximal whitespace runs, keeping the empty
leading/trailing pieces JS produces. -/
def splitWs (s : String) : List String :=
  splitWsChunk s.data []

/-! ## JavaScript `Map` and `Set` as lists -/

/-- `Map.prototype.set`: overwrite in place if the key exists (keeping its
original insertion position), otherwise append. -/
def jsMapSet (m : List (String × α)) (k : String) (v : α) : List (String × α) :=
  match m with
  | [] => [(k, v)]
  | (k', v') :: rest => if k' = k then (k, v) :: rest else (k', v') :: jsMapSet rest k v

/-- `Map.prototype.get`, as an `Option`. -/
def jsMapGet (m : List (String × α)) (k : String) : Option α :=
  (m.find? (fun p => p.1 = k)).map (fun p => p.2)

/-- `Set.prototype.add` for string sets kept as duplicate-free lists in
insertion order. -/
def jsSetAdd (s : List String) (x : String) : List String :=
  if x ∈ s then s else s ++ [x]

/-- `Set.prototype.add` for object sets; corpus records are assumed pairwise
distinct, so structural equality coincides with JS reference identity. -/
def jsSetAddObj [DecidableEq α] (s : List α) (x : α) : List α :=
  if x ∈ s then s else s ++ [x]

/-! ## JavaScript stable sort

`Array.prototype.sort(cmp)` is required to be stable; for the consistent
comparators used by the source it is the unique stable sort, which the
left-to-right insertion below computes: a later element `x` is placed after
every earlier element `y` unless `cmp x y < 0`. -/

/-- Stable insertion of one element under a JS comparator. -/
def jsInsert (cmp : α → α → Int) (x : α) : List α → List α
  | [] => [x]
  | y :: ys => if cmp x y < 0 then x :: y :: ys else y :: jsInsert cmp x ys

/-- `arr.sort(cmp)` as a stable sort. -/
def jsSortBy (cmp : α → α → Int) (l : List α) : List α :=
  l.foldl (fun acc x => jsInsert cmp x acc) []

/-! ## Data model (src/lib/types.ts) -/

/-- `Geography` from src/lib/types.ts. -/
inductive Geography
  | us
  | hk
  | china
  | global
deriving DecidableEq, Repr

/-- The string value a `Geography` has in the TypeScript union type. -/
def geoString : Geography → String
  | .us => "us"
  | .hk => "hk"
  | .china => "china"
  | .global => "global"

/-- `Stock` from src/lib/types.ts (the fields the resolution core reads;
the optional `acronyms` array is modelled with `[]` for absent). -/
structure Stock where
  symbol : String
  name : String
  exchange : String
  exchangeShortName : String
  acronyms : List String := []
deriving DecidableEq, Repr

/-- `EnhancedStock` from src/lib/types.ts (derived search metadata made
mandatory). -/
structure EnhancedStock where
  symbol : String
  name : String
  exchange : String
  exchangeShortName : String
  acronyms : List String
  nameWords : List String
  searchTerms : List String
deriving DecidableEq, Repr

/-- `ExtractedEntity` from src/lib/types.ts. -/
structure ExtractedEntity where
  name : String
  symbol : Option String := none
  exchange : Option String := none
  originalText : Option String := none
deriving DecidableEq, Repr

/-- `TickerGroup` from src/lib/types.ts. -/
structure TickerGroup where
  originalText : String
  tickers : List String
deriving DecidableEq, Repr

/-- One element of `TickerDebugInfo.allMatches`
(src/lib/prioritize-by-geography.ts). -/
structure DebugMatch where
  symbol : String
  name : String
  exchange : String
  exchangeShortName : String
  matchReason : String
deriving DecidableEq, Repr

/-- `TickerDebugInfo` from src/lib/prioritize-by-geography.ts. -/
structure TickerDebugInfo where
  ticker : String
  entity : String
  exchange : String
  allMatches : List DebugMatch
  selectionReason : String
deriving DecidableEq, Repr

/-- The module-level mutable maps of src/lib/prioritize-by-geography.ts
(`tickerToEntityMap`, `tickerDebugMap`), threaded explicitly. -/
structure ModuleState where
  tickerToEntityMap : List (String × ExtractedEntity)
  tickerDebugMap : List (String × TickerDebugInfo)
deriving DecidableEq, Repr

/-- `getTickerEntityMap` from src/lib/prioritize-by-geography.ts. -/
def getTickerEntityMap (st : ModuleState) : List (String × ExtractedEntity) :=
  st.tickerToEntityMap

/-- `getTickerDebugMap` from src/lib/prioritize-by-geography.ts. -/
def getTickerDebugMap (st : ModuleState) : List (String × TickerDebugInfo) :=
  st.tickerDebugMap

/-! ## Exchange taxonomy (src/lib/prioritize-by-geography.ts, lines 4-148) -/

/-- `GEOGRAPHY_EXCHANGES` table. -/
def GEOGRAPHY_EXCHANGES : Geography → List String
  | .us => ["NYSE", "NASDAQ"]
  | .hk => ["HKEX", "HKSE"]
  | .china => ["SSE", "SZSE", "SHH"]
  | .global => []

/-- `EXCHANGE_MAPPINGS` table, as an association list preserving the object
key insertion order that `Object.entries` iterates. -/
def EXCHANGE_MAPPINGS : List (String × List String) :=
  [ ("NYSE", ["NYSE", "New York Stock Exchange", "NYQ", "NYSEAMERICAN", "NYSEARCA"]),
    ("NASDAQ", ["NASDAQ", "NASDAQ Global Select", "NASDAQ Global Market",
                "NASDAQ Capital Market", "NMS", "NGM", "NCM"]),
    ("HKEX", ["HKEX", "HK", "HKSE", "Hong Kong Stock Exchange", "SEHK"]),
    ("HKSE", ["HKSE", "HKEX", "HK", "Hong Kong Stock Exchange", "SEHK"]),
    ("SSE", ["SSE", "Shanghai Stock Exchange", "SHA", "SH"]),
    ("SHH", ["SHH", "Shanghai", "SS"]),
    ("SZSE", ["SZSE", "Shenzhen Stock Exchange", "SHE", "SZ"]),
    ("LSE", ["LSE", "London Stock Exchange", "LON"]) ]

/-- `findCanonicalExchangeKey` (lines 48-65). -/
def findCanonicalExchangeKey (exchangeName : String) : Option String :=
  if exchangeName = "" then none
  else if (EXCHANGE_MAPPINGS.find? (fun p => p.1 = exchangeName)).isSome then some exchangeName
  else
    let upperExchange := jsToUpper exchangeName
    match EXCHANGE_MAPPINGS.find? (fun p => p.2.any (fun variant => jsToUpper variant = upperExchange)) with
    | some p => some p.1
    | none => none

/-- The synonym list of a canonical key (`EXCHANGE_MAPPINGS[canonicalKey]`,
with the `?? []` of the optional-chaining reads). -/
def exchangeSynonyms (canonicalKey : String) : List String :=
  match EXCHANGE_MAPPINGS.find? (fun p => p.1 = canonicalKey) with
  | some p => p.2
  | none => []

/-- The suffix token of a synonym: `variant.split(' ')[0]` when the variant
contains a space, else the variant itself, uppercased (lines 133-136). -/
def variantSuffix (variant : String) : String :=
  if strContainsChar variant ' ' then jsToUpper ((splitChar variant ' ').headD "")
  else jsToUpper variant

/-- `isStockFromExchange` (lines 103-148). -/
def isStockFromExchange (stock : Stock) (exchangeKey : String) : Bool :=
  if exchangeKey = "" || exchangeKey = "all" then true
  else
    match findCanonicalExchangeKey exchangeKey with
    | none =>
      stock.exchangeShortName = exchangeKey || stock.exchange = exchangeKey ||
        strEndsWith stock.symbol ("." ++ exchangeKey)
    | some canonicalKey =>
      let syns := exchangeSynonyms canonicalKey
      let shortNameMatch := !(stock.exchangeShortName = "") &&
        syns.any (fun variant => jsToUpper variant = jsToUpper stock.exchangeShortName)
      let exchangeMatch := !(stock.exchange = "") &&
        syns.any (fun variant => jsToUpper variant = jsToUpper stock.exchange)
      let symbolMatch := !(stock.symbol = "") &&
        syns.any (fun variant =>
          if canonicalKey = "HKEX" || canonicalKey = "HKSE" then
            strEndsWith (jsToUpper stock.symbol) ".HK"
          else
            strEndsWith (jsToUpper stock.symbol) ("." ++ variantSuffix variant) ||
              strEndsWith (jsToUpper stock.symbol) (":" ++ variantSuffix variant))
      shortNameMatch || exchangeMatch || symbolMatch

/-! ## Word-boundary regex model

The prioritizer builds `new RegExp("\\b" + name + "\\b")` from the raw
entity name.  We model the ECMAScript fragment actually exercised: names
made of literal characters (alphanumerics, space, underscore, hyphen,
comma, apostrophe) compile to a valid pattern matching the name literally
between `\b` boundaries; a name containing any other character (regex
metacharacters such as an unbalanced `(`, which is a genuine ECMAScript
`SyntaxError`) is modelled as failing to compile. -/

/-- ECMAScript `\w` (word character) class: `[A-Za-z0-9_]`. -/
def isWordChar (c : Char) : Bool :=
  (('a' ≤ c && c ≤ 'z') || ('A' ≤ c && c ≤ 'Z') || c.isDigit || c = '_')

/-- Characters that stand for themselves in a regex pattern (the modelled
literal fragment). -/
def isRegexLiteralChar (c : Char) : Bool :=
  c.isAlphanum || c = ' ' || c = '_' || c = '-' || c = ',' || c = '\''

/-- Does `"\\b" + name + "\\b"` compile, in the modelled fragment? -/
def validRegexLiteral (name : String) : Bool :=
  name.data.all isRegexLiteralChar

/-- `\b` between two optional neighbouring characters (absence counts as a
non-word character). -/
def wordBoundaryBetween (left right : Option Char) : Bool :=
  ((left.map isWordChar).getD false) != ((right.map isWordChar).getD false)

/-- Does `\b<pat>\b` match at the head of `l`, with `prev` the character
just before `l`? -/
def wbMatchHere (pat : List Char) (prev : Option Char) (l : List Char) : Bool :=
  listStartsWith l pat &&
    wordBoundaryBetween prev pat.head? &&
    wordBoundaryBetween pat.getLast? ((l.drop pat.length).head?)

/-- Search `\b<pat>\b` anywhere in the remaining text. -/
def wbMatchAux (pat : List Char) : Option Char → List Char → Bool
  | prev, [] => wbMatchHere pat prev []
  | prev, c :: cs => wbMatchHere pat prev (c :: cs) || wbMatchAux pat (some c) cs

/-- `new RegExp("\\b" + name + "\\b").test(text)` in the literal fragment. -/
def wbTest (name text : String) : Bool :=
  wbMatchAux name.data none text.data

/-- Building and testing the word-boundary regex; compilation of an invalid
pattern throws. -/
def regExpWordBoundaryTest (name text : String) : Except String Bool :=
  if validRegexLiteral name then .ok (wbTest name text)
  else .error "SyntaxError: Invalid regular expression"

/-! ## Geography prioritizer (src/lib/prioritize-by-geography.ts, 150-710) -/

/-- `marketCapRank` table (lines 158-169). -/
def marketCapRankTable : List (String × Nat) :=
  [("NYSE", 1), ("NASDAQ", 2), ("HKEX", 3), ("HKSE", 3), ("LSE", 4),
   ("SSE", 5), ("SHH", 5), ("SS", 5), ("SZSE", 6), ("SZ", 6)]

/-- `getMarketCapRank` (lines 172-181): table value or the 999 default. -/
def getMarketCapRank (stock : Stock) : Nat :=
  match marketCapRankTable.find? (fun p => p.1 = stock.exchangeShortName) with
  | some p => p.2
  | none => 999

/-- The per-entity candidate predicate of the prioritizer's re-derivation
(the `stocks.filter` body, lines 199-240). -/
def entityMatchesStock (normalizedName : String) (stock : Stock) : Bool :=
  let stockName := jsToLower stock.name
  let nameMatch := strIncludes stockName normalizedName
  let symbolMatch := jsToLower stock.symbol = normalizedName
  let acronymMatch := stock.acronyms.any (fun acronym => jsToLower acronym = normalizedName)
  let words := splitWs stockName
  let wordMatch := words.any (fun w => w = normalizedName)
  let numericMatch :=
    if isAllDigits normalizedName then
      let base := strIncludes stock.symbol normalizedName
      if strStartsWith normalizedName "00" && 4 ≤ normalizedName.length then
        let trimmedCode := stripLeadingZeros normalizedName
        if 0 < trimmedCode.length then base || strIncludes stock.symbol trimmedCode else base
      else base
    else false
  nameMatch || symbolMatch || acronymMatch || wordMatch || numericMatch

/-- `entity.exchange || geography` (lines 282 and 311). -/
def effExchange (entity : ExtractedEntity) (geography : Geography) : String :=
  match entity.exchange with
  | some e => if e = "" then geoString geography else e
  | none => geoString geography

/-- Building one `allMatches` element (lines 283-289 and 312-318). -/
def mkDebugMatch (reason : String) (s : Stock) : DebugMatch :=
  ⟨s.symbol, s.name, s.exchange, s.exchangeShortName, reason⟩

/-- The debug record created for an entity with direct matches
(lines 308-320). -/
def mkDebug0 (entity : ExtractedEntity) (geography : Geography)
    (matchingStocks : List Stock) : TickerDebugInfo :=
  { ticker := "", entity := entity.name, exchange := effExchange entity geography,
    allMatches := matchingStocks.map (mkDebugMatch "Name match"),
    selectionReason := "" }

/-- Comparator of the numeric-code fuzzy fallback (lines 252-269). -/
def numFallbackCmp (normalizedName : String) (geography : Geography) (a b : Stock) : Int :=
  let aContainsNumber := strIncludes a.symbol normalizedName
  let bContainsNumber := strIncludes b.symbol normalizedName
  if aContainsNumber && !bContainsNumber then -1
  else if !aContainsNumber && bContainsNumber then 1
  else
    let aMatchesGeography := isStockFromExchange a (geoString geography)
    let bMatchesGeography := isStockFromExchange b (geoString geography)
    if aMatchesGeography && !bMatchesGeography then -1
    else if !aMatchesGeography && bMatchesGeography then 1
    else (a.symbol.length : Int) - (b.symbol.length : Int)

/-- The numeric-code fallback taken when an entity has no direct matches
(lines 242-299); `none` means the entity contributes nothing. -/
def numericFallback (normalizedName : String) (geography : Geography)
    (entity : ExtractedEntity) (stocks : List Stock) : Option (String × TickerDebugInfo) :=
  if isAllDigits normalizedName && 0 < stocks.length then
    let sortedFuzzyMatches := jsSortBy (numFallbackCmp normalizedName geography) stocks
    let fuzzyMatches := sortedFuzzyMatches.take 5
    match fuzzyMatches with
    | f :: _ =>
      some (f.symbol,
        { ticker := f.symbol, entity := entity.name,
          exchange := effExchange entity geography,
          allMatches := fuzzyMatches.map (mkDebugMatch "Fuzzy match"),
          selectionReason := "Fuzzy match - no exact match found" })
    | [] => none
  else none

/-- Comparator of the user-specified-exchange branch (lines 341-363). -/
def p1Cmp (normalizedName exchangeHint : String) (a b : Stock) : Int :=
  let aNameExact := jsToLower a.name = normalizedName
  let bNameExact := jsToLower b.name = normalizedName
  if aNameExact && !bNameExact then -1
  else if !aNameExact && bNameExact then 1
  else
    let exchangeCode := jsToLower exchangeHint
    let aHasExchangeSuffix := strEndsWith (jsToLower a.symbol) ("." ++ exchangeCode)
    let bHasExchangeSuffix := strEndsWith (jsToLower b.symbol) ("." ++ exchangeCode)
    if aHasExchangeSuffix && !bHasExchangeSuffix then -1
    else if !aHasExchangeSuffix && bHasExchangeSuffix then 1
    else if aHasExchangeSuffix && bHasExchangeSuffix then
      (a.symbol.length : Int) - (b.symbol.length : Int)
    else 0

/-- Modelled from the spec: the Step-2 sort key the spec claims,
"(exact-name-match desc, symbol-has-exchange-suffix desc, symbol-length
asc)", reading symbol-length as an unconditional third key.  Used only to
compare the spec's claimed ordering against the source's `p1Cmp`, whose
length tie-break applies only when both symbols carry the suffix. -/
def specStep2Cmp (normalizedName exchangeHint : String) (a b : Stock) : Int :=
  let aNameExact := jsToLower a.name = normalizedName
  let bNameExact := jsToLower b.name = normalizedName
  if aNameExact && !bNameExact then -1
  else if !aNameExact && bNameExact then 1
  else
    let exchangeCode := jsToLower exchangeHint
    let aHasExchangeSuffix := strEndsWith (jsToLower a.symbol) ("." ++ exchangeCode)
    let bHasExchangeSuffix := strEndsWith (jsToLower b.symbol) ("." ++ exchangeCode)
    if aHasExchangeSuffix && !bHasExchangeSuffix then -1
    else if !aHasExchangeSuffix && bHasExchangeSuffix then 1
    else (a.symbol.length : Int) - (b.symbol.length : Int)

/-- PRIORITY 1, the user-specified-exchange branch (lines 329-378); `none`
means fall through to geography-based selection. -/
def p1Branch (normalizedName : String) (dbg0 : TickerDebugInfo) (exchangeHint : String)
    (matchingStocks : List Stock) : Option (String × TickerDebugInfo) :=
  let stocksInSpecifiedExchange :=
    matchingStocks.filter (fun stock => isStockFromExchange stock exchangeHint)
  if 0 < stocksInSpecifiedExchange.length then
    match jsSortBy (p1Cmp normalizedName exchangeHint) stocksInSpecifiedExchange with
    | s :: _ =>
      some (s.symbol,
        { dbg0 with
          ticker := s.symbol,
          selectionReason := "User specified exchange: " ++ exchangeHint })
    | [] => none
  else none

/-- The `if (entity.exchange)` guard around PRIORITY 1 (JS truthiness:
`undefined` and `""` skip the branch). -/
def p1Result (normalizedName : String) (dbg0 : TickerDebugInfo)
    (exchangeOpt : Option String) (matchingStocks : List Stock) :
    Option (String × TickerDebugInfo) :=
  match exchangeOpt with
  | some ex => if ex = "" then none else p1Branch normalizedName dbg0 ex matchingStocks
  | none => none

/-- The tiered name-match score shared by the global branch (lines 395-403)
and the fallback branch (lines 573-587); the word-boundary tier may throw. -/
def nameMatchScore (normalizedName stockName : String) : Except String Int :=
  if stockName = normalizedName then .ok 10000
  else if strStartsWith stockName (normalizedName ++ " ") then .ok 5000
  else
    match regExpWordBoundaryTest normalizedName stockName with
    | .error e => .error e
    | .ok true => .ok 3000
    | .ok false => if strIncludes stockName normalizedName then .ok 1000 else .ok 0

/-- Derivative-product markers of the global branch (lines 416-423). -/
def hasDerivMarkerGlobal (stockName : String) : Bool :=
  ["etf", "etp", "tracker", "short", "long", "-1x", "-2x", "-3x"].any
    (fun m => strIncludes stockName m)

/-- Derivative-product markers of the fallback branch (lines 610-616);
note: no "long", unlike the global branch. -/
def hasDerivMarkerFallback (stockName : String) : Bool :=
  ["tracker", "-1x", "-2x", "-3x", "short", "etf", "etp"].any
    (fun m => strIncludes stockName m)

/-- Global-branch score of one candidate (lines 390-428). -/
def globalScore (normalizedName : String) (stock : Stock) : Except String Int :=
  let stockName := jsToLower stock.name
  match nameMatchScore normalizedName stockName with
  | .error e => .error e
  | .ok nameScore =>
    .ok (nameScore
      + (if !(strContainsChar stock.symbol '.') then 3000 else 0)
      + (1000 - (getMarketCapRank stock : Int) * 100)
      - (if hasDerivMarkerGlobal stockName then 5000 else 0))

/-- `scores.get(stock) || 0` (lines 433-434 and 627-628). -/
def scoreOf (scores : List (Stock × Int)) (s : Stock) : Int :=
  match scores.find? (fun p => p.1 = s) with
  | some p => p.2
  | none => 0

/-- Global-branch comparator (lines 431-461). -/
def globalCmp (normalizedName : String) (scores : List (Stock × Int)) (a b : Stock) : Int :=
  let aScore := scoreOf scores a
  let bScore := scoreOf scores b
  if aScore ≠ bScore then bScore - aScore
  else
    let aNameExact := jsToLower a.name = normalizedName
    let bNameExact := jsToLower b.name = normalizedName
    if aNameExact && !bNameExact then -1
    else if !aNameExact && bNameExact then 1
    else
      let aPrimaryMarket := !(strContainsChar a.symbol '.')
      let bPrimaryMarket := !(strContainsChar b.symbol '.')
      if aPrimaryMarket && !bPrimaryMarket then -1
      else if !aPrimaryMarket && bPrimaryMarket then 1
      else (getMarketCapRank a : Int) - (getMarketCapRank b : Int)

/-- The global-geography branch (lines 385-477). -/
def globalBranch (normalizedName : String) (dbg0 : TickerDebugInfo)
    (matchingStocks : List Stock) : Except String (Option (String × TickerDebugInfo)) :=
  match matchingStocks.mapM (fun s => (globalScore normalizedName s).map (fun sc => (s, sc))) with
  | .error e => .error e
  | .ok globalMatchScores =>
    match jsSortBy (globalCmp normalizedName globalMatchScores) matchingStocks with
    | s :: _ =>
      .ok (some (s.symbol,
        { dbg0 with
          ticker := s.symbol,
          selectionReason := "Global setting, sorted by match quality and market cap" }))
    | [] => .ok none

/-- Comparator of the preferred-exchange sort (lines 503-540). -/
def geoCmp (geography : Geography) (a b : Stock) : Int :=
  if geography = Geography.hk then
    let aIsHK := strEndsWith a.symbol ".HK"
    let bIsHK := strEndsWith b.symbol ".HK"
    if aIsHK && !bIsHK then -1
    else if !aIsHK && bIsHK then 1
    else if aIsHK && bIsHK then
      let aCode := (splitChar a.symbol '.').headD ""
      let bCode := (splitChar b.symbol '.').headD ""
      if isAllDigits aCode && isAllDigits bCode then
        (aCode.length : Int) - (bCode.length : Int)
      else 0
    else 0
  else if geography = Geography.us then
    let aIsUS := !(strContainsChar a.symbol '.')
    let bIsUS := !(strContainsChar b.symbol '.')
    if aIsUS && !bIsUS then -1 else if !aIsUS && bIsUS then 1 else 0
  else if geography = Geography.china then
    let aIsChina := strEndsWith a.symbol ".SS" || strEndsWith a.symbol ".SZ"
    let bIsChina := strEndsWith b.symbol ".SS" || strEndsWith b.symbol ".SZ"
    if aIsChina && !bIsChina then -1 else if !aIsChina && bIsChina then 1 else 0
  else 0

/-- In-place update of the first `allMatches` element with a given symbol
(`findIndex` + assignment, lines 494-499). -/
def setReasonFirst (ms : List DebugMatch) (sym reason : String) : List DebugMatch :=
  match ms with
  | [] => []
  | m :: rest =>
    if m.symbol = sym then { m with matchReason := reason } :: rest
    else m :: setReasonFirst rest sym reason

/-- `primaryMarkets` table of the fallback comparator (lines 662-670). -/
def primaryMarketPriority (short : String) : Nat :=
  match ([("NYSE", 3), ("NASDAQ", 3), ("HKSE", 3), ("HKEX", 3), ("LSE", 2),
          ("SSE", 2), ("SZSE", 2)] : List (String × Nat)).find? (fun p => p.1 = short) with
  | some p => p.2
  | none => 0

/-- Fallback-branch score of one candidate (lines 567-622). -/
def fallbackScore (normalizedName : String) (stock : Stock) : Except String Int :=
  let stockName := jsToLower stock.name
  let stockSymbol := jsToLower stock.symbol
  match nameMatchScore normalizedName stockName with
  | .error e => .error e
  | .ok nameScore =>
    let tokenBonus : Int := if (splitWs stockName).any (fun w => w = normalizedName) then 500 else 0
    let symbolScore : Int :=
      if stockSymbol = normalizedName then 8000
      else if strStartsWith stockSymbol (strTake normalizedName 2) then 2000
      else 0
    let exchangeBonus : Int :=
      if stock.exchangeShortName = "NYSE" || stock.exchangeShortName = "NASDAQ" then 500 else 0
    let penalty : Int := if hasDerivMarkerFallback stockName then 1000 else 0
    .ok (nameScore + tokenBonus + symbolScore + exchangeBonus - penalty)

/-- Fallback-branch comparator (lines 625-681). -/
def fallbackCmp (normalizedName : String) (geography : Geography)
    (scores : List (Stock × Int)) (a b : Stock) : Int :=
  let aScore := scoreOf scores a
  let bScore := scoreOf scores b
  if aScore ≠ bScore then bScore - aScore
  else
    let aNameExact := jsToLower a.name = normalizedName
    let bNameExact := jsToLower b.name = normalizedName
    if aNameExact && !bNameExact then -1
    else if !aNameExact && bNameExact then 1
    else
      let geoStep : Int :=
        if geography = Geography.hk then
          let aIsHK := strEndsWith a.symbol ".HK"
          let bIsHK := strEndsWith b.symbol ".HK"
          if aIsHK && !bIsHK then -1 else if !aIsHK && bIsHK then 1 else 0
        else if geography = Geography.us then
          let aIsUS := !(strContainsChar a.symbol '.')
          let bIsUS := !(strContainsChar b.symbol '.')
          if aIsUS && !bIsUS then -1 else if !aIsUS && bIsUS then 1 else 0
        else if geography = Geography.china then
          let aIsChina := strEndsWith a.symbol ".SS" || strEndsWith a.symbol ".SZ"
          let bIsChina := strEndsWith b.symbol ".SS" || strEndsWith b.symbol ".SZ"
          if aIsChina && !bIsChina then -1 else if !aIsChina && bIsChina then 1 else 0
        else 0
      if geoStep ≠ 0 then geoStep
      else
        let aMarketPriority := primaryMarketPriority a.exchangeShortName
        let bMarketPriority := primaryMarketPriority b.exchangeShortName
        if aMarketPriority ≠ bMarketPriority then
          (bMarketPriority : Int) - (aMarketPriority : Int)
        else (a.symbol.length : Int) - (b.symbol.length : Int)

/-- PRIORITY 3, the smart-fallback / single-match tail (lines 555-705). -/
def fallbackBranch (normalizedName : String) (geography : Geography)
    (dbg1 : TickerDebugInfo) (matchingStocks : List Stock) :
    Except String (Option (String × TickerDebugInfo)) :=
  if 1 < matchingStocks.length then
    match matchingStocks.mapM
        (fun s => (fallbackScore normalizedName s).map (fun sc => (s, sc))) with
    | .error e => .error e
    | .ok matchScores =>
      match jsSortBy (fallbackCmp normalizedName geography matchScores) matchingStocks with
      | s :: _ =>
        .ok (some (s.symbol,
          { dbg1 with
            ticker := s.symbol,
            selectionReason :=
              "Smart fallback prioritization with score " ++ toString (scoreOf matchScores s) }))
      | [] => .ok none
  else
    match matchingStocks with
    | s :: _ =>
      .ok (some (s.symbol,
        { dbg1 with
          ticker := s.symbol,
          selectionReason := "Only one match available" }))
    | [] => .ok none

/-- PRIORITY 2 and onwards: everything after the user-specified-exchange
branch (lines 380-705). -/
def afterP1 (normalizedName : String) (geography : Geography) (dbg0 : TickerDebugInfo)
    (matchingStocks : List Stock) : Except String (Option (String × TickerDebugInfo)) :=
  let preferredExchanges := GEOGRAPHY_EXCHANGES geography
  if geography = Geography.global ∨ preferredExchanges.length = 0 then
    globalBranch normalizedName dbg0 matchingStocks
  else
    let stocksInPreferredExchanges := matchingStocks.filter (fun stock =>
      preferredExchanges.any (fun pe => isStockFromExchange stock pe))
    let dbg1 := { dbg0 with
      allMatches := stocksInPreferredExchanges.foldl
        (fun ms s => setReasonFirst ms s.symbol
          ("Matches preferred exchange for " ++ geoString geography))
        dbg0.allMatches }
    if 0 < stocksInPreferredExchanges.length then
      match jsSortBy (geoCmp geography) stocksInPreferredExchanges with
      | s :: _ =>
        .ok (some (s.symbol,
          { dbg1 with
            ticker := s.symbol,
            selectionReason := "Matched preferred exchange for " ++ geoString geography }))
      | [] => .ok none
    else fallbackBranch normalizedName geography dbg1 matchingStocks

/-- The body of the per-entity loop of `prioritizeByGeography`
(lines 192-706): `.ok none` means the entity contributes nothing, `.ok
(some (ticker, dbg))` that it contributes one ticker, `.error` a thrown
exception. -/
def processEntity (stocks : List Stock) (geography : Geography)
    (entity : ExtractedEntity) : Except String (Option (String × TickerDebugInfo)) :=
  let normalizedName := jsTrim (jsToLower entity.name)
  let matchingStocks := stocks.filter (entityMatchesStock normalizedName)
  if matchingStocks.length = 0 then
    .ok (numericFallback normalizedName geography entity stocks)
  else
    let dbg0 := mkDebug0 entity geography matchingStocks
    match p1Result normalizedName dbg0 entity.exchange matchingStocks with
    | some r => .ok (some r)
    | none => afterP1 normalizedName geography dbg0 matchingStocks

/-- The entity loop, accumulating selected tickers and module-state map
entries; a thrown exception leaves the partially filled maps in place. -/
def prioLoop (stocks : List Stock) (geography : Geography) :
    List ExtractedEntity → ModuleState → List String →
    ModuleState × Except String (List String)
  | [], st, acc => (st, .ok acc)
  | entity :: rest, st, acc =>
    match processEntity stocks geography entity with
    | .error e => (st, .error e)
    | .ok none => prioLoop stocks geography rest st acc
    | .ok (some (ticker, dbg)) =>
      prioLoop stocks geography rest
        { tickerToEntityMap := jsMapSet st.tickerToEntityMap ticker entity,
          tickerDebugMap := jsMapSet st.tickerDebugMap ticker dbg }
        (acc ++ [ticker])

/-- `prioritizeByGeography` (lines 150-710).  Takes the incoming module
state, resets both maps, and returns the new module state together with
the returned ticker list (or the thrown exception). -/
def prioritizeByGeography (st : ModuleState) (stocks : List Stock)
    (geography : Geography) (entities : Option (List ExtractedEntity)) :
    ModuleState × Except String (List String) :=
  let _ := st
  let reset : ModuleState := { tickerToEntityMap := [], tickerDebugMap := [] }
  match entities with
  | none => (reset, .ok (stocks.map (fun s => s.symbol)))
  | some es =>
    if es.length = 0 then (reset, .ok (stocks.map (fun s => s.symbol)))
    else prioLoop stocks geography es reset []

/-! ## Entity parser (src/unnamed/part_005, `parseExtractedEntities`)

The two bracket regexes `/(.+)\s*\[([A-Z]+)\/([A-Z]+)\]/` and
`/(.+)\s*\[([A-Z]+)\]/` are embedded as backtracking matchers with
ECMAScript leftmost-then-greedy semantics: the match starts at the
leftmost possible position, `.+` (which does not cross newlines) is
maximised first, then `\s*`. -/

/-- `[A-Z]` test. -/
def isUpperAZ (c : Char) : Bool :=
  'A' ≤ c && c ≤ 'Z'

/-- Parse `[EX1/EX2]...` at the head of the list (the deterministic tail of
the dual-exchange regex). -/
def tryBracketDual : List Char → Option (String × String)
  | [] => none
  | c :: rest =>
    if c = '[' then
      let u1 := rest.takeWhile isUpperAZ
      let r1 := rest.dropWhile isUpperAZ
      if u1.isEmpty then none
      else
        match r1 with
        | [] => none
        | c1 :: r2 =>
          if c1 = '/' then
            let u2 := r2.takeWhile isUpperAZ
            let r3 := r2.dropWhile isUpperAZ
            if u2.isEmpty then none
            else
              match r3 with
              | [] => none
              | c2 :: _ => if c2 = ']' then some (⟨u1⟩, ⟨u2⟩) else none
          else none
    else none

/-- Parse `[EX]...` at the head of the list (the tail of the
single-exchange regex). -/
def tryBracketSingle : List Char → Option String
  | [] => none
  | c :: rest =>
    if c = '[' then
      let u1 := rest.takeWhile isUpperAZ
      let r1 := rest.dropWhile isUpperAZ
      if u1.isEmpty then none
      else
        match r1 with
        | [] => none
        | c1 :: _ => if c1 = ']' then some ⟨u1⟩ else none
    else none

/-- `\s*` then a bracket group: greedily consume whitespace, backtracking
to try the bracket at each position from the deepest outwards. -/
def tryWsBracketDual : List Char → Option (String × String)
  | [] => tryBracketDual []
  | c :: cs =>
    if isJsWs c then
      match tryWsBracketDual cs with
      | some r => some r
      | none => tryBracketDual (c :: cs)
    else tryBracketDual (c :: cs)

/-- `\s*` then a single bracket group, greedy with backtracking. -/
def tryWsBracketSingle : List Char → Option String
  | [] => tryBracketSingle []
  | c :: cs =>
    if isJsWs c then
      match tryWsBracketSingle cs with
      | some r => some r
      | none => tryBracketSingle (c :: cs)
    else tryBracketSingle (c :: cs)

/-- Match `(.+)\s*\[(A-Z]+)\/([A-Z]+)\]` at a fixed start position:
`g1rev` is the reversed text consumed by `.+` so far; extend `.+`
greedily, backtracking into `\s*\[...` only when the extension fails. -/
def tryFromDual (g1rev : List Char) : List Char → Option (String × String × String)
  | [] => none
  | c :: cs =>
    match (if c = '\n' then none else tryFromDual (c :: g1rev) cs) with
    | some r => some r
    | none =>
      if g1rev.isEmpty then none
      else
        match tryWsBracketDual (c :: cs) with
        | some (e1, e2) => some (⟨g1rev.reverse⟩, e1, e2)
        | none => none

/-- Match `(.+)\s*\[([A-Z]+)\]` at a fixed start position. -/
def tryFromSingle (g1rev : List Char) : List Char → Option (String × String)
  | [] => none
  | c :: cs =>
    match (if c = '\n' then none else tryFromSingle (c :: g1rev) cs) with
    | some r => some r
    | none =>
      if g1rev.isEmpty then none
      else
        match tryWsBracketSingle (c :: cs) with
        | some e => some (⟨g1rev.reverse⟩, e)
        | none => none

/-- Unanchored search for the dual-exchange regex: try each start position
from the left. -/
def matchMultiSearch : List Char → Option (String × String × String)
  | [] => none
  | c :: cs =>
    match tryFromDual [] (c :: cs) with
    | some r => some r
    | none => matchMultiSearch cs

/-- Unanchored search for the single-exchange regex. -/
def matchSingleSearch : List Char → Option (String × String)
  | [] => none
  | c :: cs =>
    match tryFromSingle [] (c :: cs) with
    | some r => some r
    | none => matchSingleSearch cs

/-- `entity.match(/(.+)\s*\[([A-Z]+)\/([A-Z]+)\]/)`, groups 1-3. -/
def matchMultiExchange (s : String) : Option (String × String × String) :=
  matchMultiSearch s.data

/-- `entity.match(/(.+)\s*\[([A-Z]+)\]/)`, groups 1-2. -/
def matchSingleExchange (s : String) : Option (String × String) :=
  matchSingleSearch s.data

/-- `/^[A-Z0-9.]+$/.test(entity)` -/
def isTickerToken (s : String) : Bool :=
  !s.data.isEmpty && s.data.all (fun c => isUpperAZ c || c.isDigit || c = '.')

/-- The per-token classification of `parseExtractedEntities`
(src/unnamed/part_005, lines 273-331). -/
def parseToken (entity : String) : List ExtractedEntity :=
  if entity = "" then []
  else if isTickerToken entity then
    [{ name := entity, symbol := some entity, originalText := some entity }]
  else
    match matchMultiExchange entity with
    | some (n, exchange1, exchange2) =>
      [{ name := jsTrim n, exchange := some (jsTrim exchange1), originalText := some entity },
       { name := jsTrim n, exchange := some (jsTrim exchange2), originalText := some entity }]
    | none =>
      match matchSingleExchange entity with
      | some (n, exchange) =>
        [{ name := jsTrim n, exchange := some (jsTrim exchange), originalText := some entity }]
      | none => [{ name := entity, originalText := some entity }]

/-- Join strings with newlines (`arr.join("\n")`). -/
def joinNewline : List String → String
  | [] => ""
  | [s] => s
  | s :: rest => s ++ "\n" ++ joinNewline rest

/-- `parseExtractedEntities` (src/unnamed/part_005, lines 244-335). -/
def parseExtractedEntities (entitiesText : String) : List ExtractedEntity :=
  if jsTrim entitiesText = "" then []
  else
    let cleanedText := jsTrim entitiesText
    let cleanedText :=
      if strStartsWith (jsToLower cleanedText) "response:" then jsTrim (strDrop cleanedText 9)
      else cleanedText
    let cleanedText := jsTrim (joinNewline ((splitChar cleanedText '\n').filter
      (fun line => !strIncludes line "Query --" && !strIncludes line "Here is the user query:")))
    let entityGroups := (splitChar cleanedText ';').map jsTrim
    let allEntities := entityGroups.foldl (fun acc group =>
      ((splitChar group ',').map jsTrim).foldl (fun acc2 e => acc2 ++ parseToken e) acc) []
    allEntities.filter (fun e => !(e.name = ""))

/-! ## Security matcher (src/unnamed/part_005, `matchStockSymbols`)

The Fuse.js search of `fuzzyMatchStocks` is an external library call; it is
a parameter `fuzzy` giving the post-threshold result list for an entity
name and corpus. -/

/-- `findDirectMatches`'s cleaned-name normalization:
`.replace(/[^a-z0-9]/g, "").replace(/\s+/g, "")`. -/
def cleanAlnum (s : String) : String :=
  ⟨s.data.filter (fun c => ('a' ≤ c && c ≤ 'z') || c.isDigit)⟩

/-- `findDirectMatches` (src/unnamed/part_005, lines 111-145): union of the
five strategies, deduplicated in insertion order as the JS `Set` does. -/
def findDirectMatches (query : String) (stocks : List EnhancedStock) : List EnhancedStock :=
  let normalizedQuery := jsTrim (jsToLower query)
  let symbolMatches := stocks.filter (fun stock => jsToLower stock.symbol = normalizedQuery)
  let acronymMatches := stocks.filter (fun stock =>
    stock.acronyms.any (fun acronym => jsToLower acronym = normalizedQuery))
  let termMatches := stocks.filter (fun stock =>
    stock.searchTerms.any (fun t => t = normalizedQuery))
  let cleanedQuery := cleanAlnum normalizedQuery
  let cleanedMatches := stocks.filter (fun stock =>
    stock.searchTerms.any (fun term => cleanAlnum term = cleanedQuery))
  let nameMatches :=
    if 2 < normalizedQuery.length then
      stocks.filter (fun stock => strIncludes (jsToLower stock.name) normalizedQuery)
    else []
  let allMatches := symbolMatches.foldl jsSetAddObj []
  let allMatches := acronymMatches.foldl jsSetAddObj allMatches
  let allMatches := termMatches.foldl jsSetAddObj allMatches
  let allMatches := cleanedMatches.foldl jsSetAddObj allMatches
  nameMatches.foldl jsSetAddObj allMatches

/-- The exact-symbol step of `matchStockSymbols` (lines 37-58): the pushed
matches and the per-entity collected-symbol set. -/
def exactSymbolStep (stocks : List EnhancedStock) (entity : ExtractedEntity) :
    List EnhancedStock × List String :=
  match entity.symbol with
  | some sym =>
    if sym = "" then ([], [])
    else
      let exactMatches := stocks.filter (fun stock => jsToUpper stock.symbol = jsToUpper sym)
      (exactMatches, exactMatches.foldl (fun acc m => jsSetAdd acc m.symbol) [])
  | none => ([], [])

/-- The direct-match step (lines 60-74) applied after the exact-symbol
step: pushed stocks so far and the updated collected-symbol set. -/
def directStep (stocks : List EnhancedStock) (entity : ExtractedEntity) :
    List EnhancedStock × List String :=
  let step1 := exactSymbolStep stocks entity
  let directMatches := (findDirectMatches entity.name stocks).filter
    (fun m => !(step1.2.any (fun x => x = m.symbol)))
  (step1.1 ++ directMatches,
   directMatches.foldl (fun acc m => jsSetAdd acc m.symbol) step1.2)

/-- The stocks pushed onto `matchedStocks` for one entity (loop body,
lines 32-95), for a given fuzzy-search oracle. -/
def entityContribution (fuzzy : String → List EnhancedStock → List EnhancedStock)
    (stocks : List EnhancedStock) (entity : ExtractedEntity) : List EnhancedStock :=
  let step2 := directStep stocks entity
  if step2.2.length < 3 then
    let fuzzyMatches := (fuzzy entity.name stocks).filter
      (fun m => !(step2.2.any (fun x => x = m.symbol)))
    step2.1 ++ fuzzyMatches
  else step2.1

/-- `matchStockSymbols` (lines 5-106), given the cached corpus and the
fuzzy oracle. -/
def matchStockSymbols (fuzzy : String → List EnhancedStock → List EnhancedStock)
    (stocks : List EnhancedStock) (entities : List ExtractedEntity) : List EnhancedStock :=
  entities.foldl (fun acc entity => acc ++ entityContribution fuzzy stocks entity) []

/-! ## extractTickers pipeline (src/lib/extract-tickers.ts)

The two awaited collaborators (`extractEntities`, whose failures come from
the oracle HTTP call, and `matchStockSymbols`, whose failures come from the
corpus fetch) enter as `Except`-valued parameters. -/

/-- `entity.originalText || entity.name` (line 42). -/
def entityGroupKey (entity : ExtractedEntity) : String :=
  match entity.originalText with
  | some t => if t = "" then entity.name else t
  | none => entity.name

/-- Append a ticker to the group of a key, preserving `Map` insertion
order (lines 44-48). -/
def jsGroupPush (m : List (String × List String)) (k v : String) :
    List (String × List String) :=
  match m with
  | [] => [(k, [v])]
  | (k', vs) :: rest =>
    if k' = k then (k, vs ++ [v]) :: rest else (k', vs) :: jsGroupPush rest k v

/-- Steps 4-5 of `extractTickers` (lines 30-72): group prioritized tickers
by the originating entity's original text. -/
def groupTickers (prioritizedTickers : List String)
    (tickerEntityMap : List (String × ExtractedEntity)) : List TickerGroup :=
  let groupedByOriginalText := prioritizedTickers.foldl (fun acc ticker =>
    match jsMapGet tickerEntityMap ticker with
    | none => acc
    | some entity => jsGroupPush acc (entityGroupKey entity) ticker) []
  groupedByOriginalText.map (fun p => { originalText := p.1, tickers := p.2 })

/-- `extractTickers` (lines 6-79): the whole pipeline with its top-level
try/catch, over the module state of the prioritizer.  `entitiesResult` is
the outcome of `await extractEntities(query, useOpenRouter)` and
`matchedResult` that of `await matchStockSymbols(entities)`. -/
def extractTickers (st : ModuleState) (entitiesResult : Except String (List ExtractedEntity))
    (matchedResult : Except String (List Stock)) (geography : Geography) :
    ModuleState × Except String (List TickerGroup) :=
  match entitiesResult with
  | .error _ => (st, .error "Failed to extract tickers")
  | .ok entities =>
    if entities.length = 0 then (st, .ok [])
    else
      match matchedResult with
      | .error _ => (st, .error "Failed to extract tickers")
      | .ok matchedStocks =>
        if matchedStocks.length = 0 then (st, .ok [])
        else
          match prioritizeByGeography st matchedStocks geography (some entities) with
          | (st', .error _) => (st', .error "Failed to extract tickers")
          | (st', .ok prioritizedTickers) =>
            (st', .ok (groupTickers prioritizedTickers (getTickerEntityMap st')))

/-! ## Lemmas about the JavaScript primitives -/

theorem length_jsInsert (cmp : α → α → Int) (x : α) (l : List α) :
    (jsInsert cmp x l).length = l.length + 1 := by
  induction l with
  | nil => rfl
  | cons y ys ih => simp only [jsInsert]; split <;> simp [ih]

theorem mem_jsInsert {cmp : α → α → Int} {x a : α} {l : List α} :
    a ∈ jsInsert cmp x l ↔ a = x ∨ a ∈ l := by
  induction l with
  | nil => simp [jsInsert]
  | cons y ys ih =>
    simp only [jsInsert]
    split
    · simp
    · simp [ih]
      tauto

theorem jsSortFold_length (cmp : α → α → Int) (l acc : List α) :
    (l.foldl (fun acc x => jsInsert cmp x acc) acc).length = acc.length + l.length := by
  induction l generalizing acc with
  | nil => simp
  | cons x xs ih => simp [List.foldl_cons, ih, length_jsInsert]; omega

theorem length_jsSortBy (cmp : α → α → Int) (l : List α) :
    (jsSortBy cmp l).length = l.length := by
  simpa using jsSortFold_length cmp l []

theorem jsSortFold_mem (cmp : α → α → Int) (a : α) (l acc : List α) :
    a ∈ l.foldl (fun acc x => jsInsert cmp x acc) acc ↔ a ∈ acc ∨ a ∈ l := by
  induction l generalizing acc with
  | nil => simp
  | cons x xs ih => simp [List.foldl_cons, ih, mem_jsInsert]; tauto

theorem mem_jsSortBy (cmp : α → α → Int) {a : α} {l : List α} :
    a ∈ jsSortBy cmp l ↔ a ∈ l := by
  simpa [jsSortBy] using jsSortFold_mem cmp a l []

theorem jsSortBy_ne_nil {cmp : α → α → Int} {l : List α} (h : l ≠ []) :
    jsSortBy cmp l ≠ [] := by
  intro hs
  apply h
  have := length_jsSortBy cmp l
  rw [hs] at this
  exact List.length_eq_zero.mp this.symm

theorem jsMapGet_cons (a : String) (b : α) (m : List (String × α)) (k : String) :
    jsMapGet ((a, b) :: m) k = if a = k then some b else jsMapGet m k := by
  by_cases h : a = k
  · simp [jsMapGet, List.find?_cons, h]
  · simp [jsMapGet, List.find?_cons, h]

theorem jsMapGet_jsMapSet_isSome {m : List (String × α)} {k k' : String} {v : α}
    (h : (jsMapGet (jsMapSet m k v) k').isSome = true) :
    k' = k ∨ (jsMapGet m k').isSome = true := by
  induction m with
  | nil =>
    simp only [jsMapSet, jsMapGet_cons] at h
    by_cases hk : k = k'
    · exact Or.inl hk.symm
    · simp [hk, jsMapGet] at h
  | cons p m ih =>
    obtain ⟨a, b⟩ := p
    simp only [jsMapSet] at h
    by_cases hak : a = k
    · simp only [if_pos hak, jsMapGet_cons] at h
      by_cases hk : k = k'
      · exact Or.inl hk.symm
      · right
        rw [if_neg hk] at h
        rw [jsMapGet_cons, if_neg (by rw [hak]; exact hk)]
        exact h
    · simp only [if_neg hak, jsMapGet_cons] at h
      by_cases hak' : a = k'
      · right
        rw [jsMapGet_cons, if_pos hak']
        rfl
      · rw [if_neg hak'] at h
        rcases ih h with h1 | h1
        · exact Or.inl h1
        · right
          rw [jsMapGet_cons, if_neg hak']
          exact h1

/-! ## Lemmas about the prioritizer loop -/

theorem prioLoop_ok_spec (stocks : List Stock) (geography : Geography) :
    ∀ (es : List ExtractedEntity) (st st' : ModuleState) (acc ts : List String),
      prioLoop stocks geography es st acc = (st', .ok ts) →
      (∃ extra, ts = acc ++ extra ∧ extra.length ≤ es.length) ∧
      (∀ k, (jsMapGet st'.tickerToEntityMap k).isSome = true →
        (jsMapGet st.tickerToEntityMap k).isSome = true ∨ k ∈ ts) ∧
      (∀ k, (jsMapGet st'.tickerDebugMap k).isSome = true →
        (jsMapGet st.tickerDebugMap k).isSome = true ∨ k ∈ ts) := by
  intro es
  induction es with
  | nil =>
    intro st st' acc ts h
    simp only [prioLoop] at h
    obtain ⟨h1, h2⟩ := Prod.mk.injEq .. ▸ h
    cases h
    refine ⟨⟨[], by simp⟩, ?_, ?_⟩
    · intro k hk; exact Or.inl hk
    · intro k hk; exact Or.inl hk
  | cons entity rest ih =>
    intro st st' acc ts h
    simp only [prioLoop] at h
    cases hp : processEntity stocks geography entity with
    | error e => rw [hp] at h; cases h
    | ok o =>
      rw [hp] at h
      cases o with
      | none =>
        obtain ⟨⟨extra, hex, hlen⟩, hmap, hdbg⟩ := ih st st' acc ts h
        exact ⟨⟨extra, hex, Nat.le_succ_of_le hlen⟩, hmap, hdbg⟩
      | some r =>
        obtain ⟨ticker, dbg⟩ := r
        obtain ⟨⟨extra, hex, hlen⟩, hmap, hdbg⟩ := ih _ st' _ ts h
        refine ⟨⟨ticker :: extra, by simpa using hex, by simpa using hlen⟩, ?_, ?_⟩
        · intro k hk
          rcases hmap k hk with h1 | h1
          · rcases jsMapGet_jsMapSet_isSome h1 with h2 | h2
            · subst h2
              right
              rw [hex]
              simp
            · exact Or.inl h2
          · exact Or.inr h1
        · intro k hk
          rcases hdbg k hk with h1 | h1
          · rcases jsMapGet_jsMapSet_isSome h1 with h2 | h2
            · subst h2
              right
              rw [hex]
              simp
            · exact Or.inl h2
          · exact Or.inr h1

theorem jsSortBy_exists_cons (cmp : α → α → Int) {l : List α} (h : l ≠ []) :
    ∃ s rest, jsSortBy cmp l = s :: rest := by
  cases hs : jsSortBy cmp l with
  | nil => exact absurd hs (jsSortBy_ne_nil h)
  | cons s rest => exact ⟨s, rest, rfl⟩

theorem globalBranch_ne_ok_none (normalizedName : String) (dbg0 : TickerDebugInfo)
    {matchingStocks : List Stock} (hne : matchingStocks ≠ []) :
    globalBranch normalizedName dbg0 matchingStocks ≠ .ok none := by
  intro h
  simp only [globalBranch] at h
  cases hm : matchingStocks.mapM
      (fun s => (globalScore normalizedName s).map (fun sc => (s, sc))) with
  | error e => rw [hm] at h; cases h
  | ok scores =>
    rw [hm] at h
    dsimp only at h
    obtain ⟨s, rest, hs⟩ := jsSortBy_exists_cons (globalCmp normalizedName scores) hne
    rw [hs] at h
    cases h

theorem fallbackBranch_ne_ok_none (normalizedName : String) (geography : Geography)
    (dbg1 : TickerDebugInfo) {matchingStocks : List Stock} (hne : matchingStocks ≠ []) :
    fallbackBranch normalizedName geography dbg1 matchingStocks ≠ .ok none := by
  intro h
  simp only [fallbackBranch] at h
  split at h
  · cases hm : matchingStocks.mapM
        (fun s => (fallbackScore normalizedName s).map (fun sc => (s, sc))) with
    | error e => rw [hm] at h; cases h
    | ok scores =>
      rw [hm] at h
      dsimp only at h
      obtain ⟨s, rest, hs⟩ :=
        jsSortBy_exists_cons (fallbackCmp normalizedName geography scores) hne
      rw [hs] at h
      cases h
  · cases matchingStocks with
    | nil => exact hne rfl
    | cons s rest => cases h

theorem afterP1_ne_ok_none (normalizedName : String) (geography : Geography)
    (dbg0 : TickerDebugInfo) {matchingStocks : List Stock} (hne : matchingStocks ≠ []) :
    afterP1 normalizedName geography dbg0 matchingStocks ≠ .ok none := by
  intro h
  simp only [afterP1] at h
  split at h
  · exact globalBranch_ne_ok_none _ _ hne h
  · split at h
    · rename_i hpos
      have hfne : matchingStocks.filter (fun stock =>
          (GEOGRAPHY_EXCHANGES geography).any (fun pe => isStockFromExchange stock pe)) ≠ [] := by
        intro hnil
        rw [hnil] at hpos
        simp at hpos
      obtain ⟨s, rest, hs⟩ := jsSortBy_exists_cons (geoCmp geography) hfne
      rw [hs] at h
      cases h
    · exact fallbackBranch_ne_ok_none _ _ _ hne h

theorem processEntity_ok_none_iff (stocks : List Stock) (geography : Geography)
    (e : ExtractedEntity) :
    processEntity stocks geography e = .ok none ↔
      stocks.filter (entityMatchesStock (jsTrim (jsToLower e.name))) = [] ∧
      numericFallback (jsTrim (jsToLower e.name)) geography e stocks = none := by
  constructor
  · intro h
    simp only [processEntity] at h
    split at h
    · rename_i hlen
      refine ⟨List.length_eq_zero.mp hlen, ?_⟩
      injection h
    · rename_i hlen
      exfalso
      have hne : stocks.filter (entityMatchesStock (jsTrim (jsToLower e.name))) ≠ [] := by
        intro hnil
        exact hlen (by rw [hnil]; rfl)
      cases hp : p1Result (jsTrim (jsToLower e.name))
          (mkDebug0 e geography (stocks.filter (entityMatchesStock (jsTrim (jsToLower e.name)))))
          e.exchange (stocks.filter (entityMatchesStock (jsTrim (jsToLower e.name)))) with
      | some r => rw [hp] at h; cases h
      | none =>
        rw [hp] at h
        exact afterP1_ne_ok_none _ _ _ hne h
  · intro ⟨h1, h2⟩
    simp only [processEntity]
    rw [if_pos (by rw [h1]; rfl), h2]

/-! ## Lemmas about the bracket matchers -/

theorem tryBracketDual_bracketMem {l : List Char} {p : String × String}
    (h : tryBracketDual l = some p) : '[' ∈ l := by
  cases l with
  | nil => cases h
  | cons c cs =>
    simp only [tryBracketDual] at h
    by_cases hc : c = '['
    · subst hc
      exact List.mem_cons_self _ _
    · rw [if_neg hc] at h
      cases h

theorem tryWsBracketDual_bracketMem : ∀ {l : List Char} {p : String × String},
    tryWsBracketDual l = some p → '[' ∈ l := by
  intro l
  induction l with
  | nil =>
    intro p h
    simp [tryWsBracketDual, tryBracketDual] at h
  | cons c cs ih =>
    intro p h
    simp only [tryWsBracketDual] at h
    by_cases hc : isJsWs c
    · rw [if_pos hc] at h
      cases hr : tryWsBracketDual cs with
      | some r => exact List.mem_cons_of_mem _ (ih hr)
      | none =>
        rw [hr] at h
        exact tryBracketDual_bracketMem h
    · rw [if_neg hc] at h
      exact tryBracketDual_bracketMem h

theorem tryFromDual_bracketMem : ∀ {rest g1rev : List Char} {p : String × String × String},
    tryFromDual g1rev rest = some p → '[' ∈ rest := by
  intro rest
  induction rest with
  | nil =>
    intro g1rev p h
    cases h
  | cons c cs ih =>
    intro g1rev p h
    simp only [tryFromDual] at h
    cases hi : (if c = '\n' then none else tryFromDual (c :: g1rev) cs) with
    | some r =>
      by_cases hc : c = '\n'
      · rw [if_pos hc] at hi
        cases hi
      · rw [if_neg hc] at hi
        exact List.mem_cons_of_mem _ (ih hi)
    | none =>
      rw [hi] at h
      dsimp only at h
      split at h
      · cases h
      · cases hw : tryWsBracketDual (c :: cs) with
        | some q => exact tryWsBracketDual_bracketMem hw
        | none =>
          rw [hw] at h
          cases h

theorem matchMultiSearch_bracketMem : ∀ {l : List Char} {p : String × String × String},
    matchMultiSearch l = some p → '[' ∈ l := by
  intro l
  induction l with
  | nil => intro p h; cases h
  | cons c cs ih =>
    intro p h
    simp only [matchMultiSearch] at h
    cases ht : tryFromDual [] (c :: cs) with
    | some r => exact tryFromDual_bracketMem ht
    | none =>
      rw [ht] at h
      exact List.mem_cons_of_mem _ (ih h)

theorem isTickerToken_false_of_bracketMem {s : String} (h : '[' ∈ s.data) :
    isTickerToken s = false := by
  cases hall : s.data.all (fun c => isUpperAZ c || c.isDigit || c = '.') with
  | false => simp [isTickerToken, hall]
  | true =>
    exfalso
    have := List.all_eq_true.mp hall _ h
    exact absurd this (by decide)

theorem ne_empty_of_bracketMem {s : String} (h : '[' ∈ s.data) : ¬(s = "") := by
  intro he
  rw [he] at h
  simp at h

/-! ## Lemmas about the matcher's collected-symbol sets -/

theorem jsSetAdd_nodup {s : List String} {x : String} (h : s.Nodup) : (jsSetAdd s x).Nodup := by
  simp only [jsSetAdd]
  split
  · exact h
  · rename_i hx
    rw [List.nodup_append]
    refine ⟨h, List.nodup_singleton x, ?_⟩
    intro a ha hax
    rw [List.mem_singleton] at hax
    exact hx (hax ▸ ha)

theorem foldl_jsSetAdd_nodup (l : List EnhancedStock) (acc : List String) (h : acc.Nodup) :
    (l.foldl (fun a m => jsSetAdd a m.symbol) acc).Nodup := by
  induction l generalizing acc with
  | nil => exact h
  | cons x xs ih => exact ih _ (jsSetAdd_nodup h)

theorem directStep_snd_nodup (stocks : List EnhancedStock) (entity : ExtractedEntity) :
    (directStep stocks entity).2.Nodup := by
  simp only [directStep]
  apply foldl_jsSetAdd_nodup
  simp only [exactSymbolStep]
  cases entity.symbol with
  | none => exact List.nodup_nil
  | some sym =>
    dsimp only
    split
    · exact List.nodup_nil
    · exact foldl_jsSetAdd_nodup _ _ List.nodup_nil

/-! ## Auxiliary facts -/

theorem str_length_pos_of_ne_empty {s : String} (h : ¬(s = "")) : 0 < s.length := by
  rcases s with ⟨data⟩
  cases data with
  | nil => exact absurd rfl h
  | cons c cs => simp [String.length]

/-! ## The claims -/

/-- C1 (corrected, counterexample): the spec's Step-2 sort key
"(exact-name-match desc, symbol-has-exchange-suffix desc, symbol-length
asc)" does not describe the code.  For the entity "zz" with exchange hint
"NYSE" over two NYSE candidates "ZZAAA" and "ZZB" (neither an exact name
match, neither with a ".nyse" symbol suffix), the code keeps input order
and selects "ZZAAA", while the claimed sort would put the shorter "ZZB"
first. -/
theorem claim1_counterexample_spec_sort :
    (∃ dbg, processEntity
        [⟨"ZZAAA", "zz one", "New York Stock Exchange", "NYSE", []⟩,
         ⟨"ZZB", "zz two", "New York Stock Exchange", "NYSE", []⟩]
        Geography.us { name := "zz", exchange := some "NYSE", originalText := some "zz" } =
      .ok (some ("ZZAAA", dbg))) ∧
    (jsSortBy (specStep2Cmp "zz" "NYSE")
        (([⟨"ZZAAA", "zz one", "New York Stock Exchange", "NYSE", []⟩,
           ⟨"ZZB", "zz two", "New York Stock Exchange", "NYSE", []⟩].filter
            (entityMatchesStock "zz")).filter
          (fun s => isStockFromExchange s "NYSE"))).map Stock.symbol = ["ZZB", "ZZAAA"] ∧
    ¬(("ZZAAA" : String) = "ZZB") := by
  refine ⟨⟨_, rfl⟩, rfl, by decide⟩

/-- C1 (corrected, amended theorem): for every entity with a non-empty
exchange hint whose re-derived candidate set has at least one stock from
that exchange, `processEntity` picks the head of the stable sort of the
filtered candidates under the code's comparator `p1Cmp` (whose
symbol-length tie-break applies only when both symbols carry the exchange
suffix), the pick is always from the filtered set (hence from the hinted
exchange), and the selection reason is "User specified exchange:
<exchange>". -/
theorem claim1_user_exchange_selection (stocks : List Stock) (geography : Geography)
    (entity : ExtractedEntity) (ex : String)
    (hex : entity.exchange = some ex) (hne : ¬(ex = ""))
    (hfil : (stocks.filter (entityMatchesStock (jsTrim (jsToLower entity.name)))).filter
      (fun s => isStockFromExchange s ex) ≠ []) :
    ∃ s rest dbg,
      jsSortBy (p1Cmp (jsTrim (jsToLower entity.name)) ex)
        ((stocks.filter (entityMatchesStock (jsTrim (jsToLower entity.name)))).filter
          (fun s => isStockFromExchange s ex)) = s :: rest ∧
      processEntity stocks geography entity = .ok (some (s.symbol, dbg)) ∧
      s ∈ (stocks.filter (entityMatchesStock (jsTrim (jsToLower entity.name)))).filter
          (fun s => isStockFromExchange s ex) ∧
      isStockFromExchange s ex = true ∧
      dbg.selectionReason = "User specified exchange: " ++ ex := by
  obtain ⟨s, rest, hs⟩ :=
    jsSortBy_exists_cons (p1Cmp (jsTrim (jsToLower entity.name)) ex) hfil
  have hms : stocks.filter (entityMatchesStock (jsTrim (jsToLower entity.name))) ≠ [] := by
    intro h0
    apply hfil
    rw [h0]
    rfl
  have hmem : s ∈ (stocks.filter (entityMatchesStock (jsTrim (jsToLower entity.name)))).filter
      (fun s => isStockFromExchange s ex) := by
    rw [← mem_jsSortBy (p1Cmp (jsTrim (jsToLower entity.name)) ex), hs]
    exact List.mem_cons_self _ _
  have hex2 : isStockFromExchange s ex = true := (List.mem_filter.mp hmem).2
  refine ⟨s, rest,
    { mkDebug0 entity geography
        (stocks.filter (entityMatchesStock (jsTrim (jsToLower entity.name)))) with
      ticker := s.symbol,
      selectionReason := "User specified exchange: " ++ ex },
    hs, ?_, hmem, hex2, rfl⟩
  simp only [processEntity]
  rw [if_neg (fun h0 => hms (List.length_eq_zero.mp h0))]
  simp only [hex, p1Result]
  rw [if_neg hne]
  simp only [p1Branch]
  rw [if_pos (List.length_pos.mpr hfil), hs]

/-- C1 witness: the amended theorem applied to the concrete two-candidate
NYSE scenario. -/
theorem claim1_user_exchange_selection_witness :
    ∃ s rest dbg,
      jsSortBy (p1Cmp (jsTrim (jsToLower "zz")) "NYSE")
        (([⟨"ZZAAA", "zz one", "New York Stock Exchange", "NYSE", []⟩,
           ⟨"ZZB", "zz two", "New York Stock Exchange", "NYSE", []⟩].filter
            (entityMatchesStock (jsTrim (jsToLower "zz")))).filter
          (fun s => isStockFromExchange s "NYSE")) = s :: rest ∧
      processEntity
        [⟨"ZZAAA", "zz one", "New York Stock Exchange", "NYSE", []⟩,
         ⟨"ZZB", "zz two", "New York Stock Exchange", "NYSE", []⟩]
        Geography.us { name := "zz", exchange := some "NYSE", originalText := some "zz" } =
        .ok (some (s.symbol, dbg)) ∧
      s ∈ (([⟨"ZZAAA", "zz one", "New York Stock Exchange", "NYSE", []⟩,
             ⟨"ZZB", "zz two", "New York Stock Exchange", "NYSE", []⟩].filter
              (entityMatchesStock (jsTrim (jsToLower "zz")))).filter
            (fun s => isStockFromExchange s "NYSE")) ∧
      isStockFromExchange s "NYSE" = true ∧
      dbg.selectionReason = "User specified exchange: " ++ "NYSE" :=
  claim1_user_exchange_selection
    [⟨"ZZAAA", "zz one", "New York Stock Exchange", "NYSE", []⟩,
     ⟨"ZZB", "zz two", "New York Stock Exchange", "NYSE", []⟩]
    Geography.us { name := "zz", exchange := some "NYSE", originalText := some "zz" }
    "NYSE" rfl (by decide) (by decide)

/-- C2: with a non-empty entities list, each entity contributes at most one
ticker — exactly one unless it has no re-derived candidates and no
numeric-fallback pick — so a successful `prioritizeByGeography` run returns
at most one ticker per entity. -/
theorem claim2_at_most_one_per_entity (st : ModuleState) (stocks : List Stock)
    (geography : Geography) (entities : List ExtractedEntity) (e : ExtractedEntity)
    (r : ModuleState) (ts : List String) (hne : entities ≠ [])
    (hrun : prioritizeByGeography st stocks geography (some entities) = (r, .ok ts)) :
    ts.length ≤ entities.length ∧
    (processEntity stocks geography e = .ok none ↔
      stocks.filter (entityMatchesStock (jsTrim (jsToLower e.name))) = [] ∧
      numericFallback (jsTrim (jsToLower e.name)) geography e stocks = none) := by
  refine ⟨?_, processEntity_ok_none_iff stocks geography e⟩
  simp only [prioritizeByGeography] at hrun
  rw [if_neg (fun h0 => hne (List.length_eq_zero.mp h0))] at hrun
  obtain ⟨⟨extra, hex, hlen⟩, _, _⟩ := prioLoop_ok_spec stocks geography entities _ _ _ _ hrun
  simpa [hex] using hlen

/-- C2 witness: the per-entity bound applied to a one-entity run over an
empty stock list. -/
theorem claim2_at_most_one_per_entity_witness :
    ([] : List String).length ≤ [({ name := "x" } : ExtractedEntity)].length ∧
    (processEntity [] Geography.us { name := "x" } = .ok none ↔
      ([] : List Stock).filter (entityMatchesStock (jsTrim (jsToLower "x"))) = [] ∧
      numericFallback (jsTrim (jsToLower "x")) Geography.us { name := "x" } [] = none) :=
  claim2_at_most_one_per_entity ⟨[], []⟩ [] Geography.us [{ name := "x" }] { name := "x" }
    ⟨[], []⟩ [] (by decide) rfl

/-- C3: `prioritizeByGeography` resets the module-level maps on entry — its
result does not depend on the incoming module state — and after a
successful call every key of the returned entity and debug maps is a
ticker selected during that call. -/
theorem claim3_maps_reset_between_calls (stocks : List Stock) (geography : Geography)
    (entities : Option (List ExtractedEntity)) :
    (∀ st1 st2, prioritizeByGeography st1 stocks geography entities =
      prioritizeByGeography st2 stocks geography entities) ∧
    (∀ st r ts, prioritizeByGeography st stocks geography entities = (r, .ok ts) →
      (∀ k, (jsMapGet (getTickerEntityMap r) k).isSome = true → k ∈ ts) ∧
      (∀ k, (jsMapGet (getTickerDebugMap r) k).isSome = true → k ∈ ts)) := by
  constructor
  · intro st1 st2
    rfl
  · intro st r ts hrun
    cases entities with
    | none =>
      simp only [prioritizeByGeography] at hrun
      injection hrun with hr hts
      subst hr
      constructor
      · intro k hk
        simp [getTickerEntityMap, jsMapGet] at hk
      · intro k hk
        simp [getTickerDebugMap, jsMapGet] at hk
    | some es =>
      simp only [prioritizeByGeography] at hrun
      split at hrun
      · injection hrun with hr hts
        subst hr
        constructor
        · intro k hk
          simp [getTickerEntityMap, jsMapGet] at hk
        · intro k hk
          simp [getTickerDebugMap, jsMapGet] at hk
      · obtain ⟨_, hmap, hdbg⟩ := prioLoop_ok_spec stocks geography es _ _ _ _ hrun
        constructor
        · intro k hk
          rcases hmap k hk with h1 | h1
          · simp [jsMapGet] at h1
          · exact h1
        · intro k hk
          rcases hdbg k hk with h1 | h1
          · simp [jsMapGet] at h1
          · exact h1

/-- C3 witness: after a concrete one-entity call that selects "AAB", both
maps hold only the key "AAB", which is in the returned list. -/
theorem claim3_maps_reset_between_calls_witness :
    ("AAB" : String) ∈ (["AAB"] : List String) ∧ ("AAB" : String) ∈ (["AAB"] : List String) := by
  have h := (claim3_maps_reset_between_calls
    [⟨"AAB", "aaa aab", "New York Stock Exchange", "NYSE", []⟩] Geography.us
    (some [{ name := "aaa", originalText := some "first" }])).2
    ⟨[("LEFTOVER", { name := "old" })], []⟩
    ⟨[("AAB", { name := "aaa", originalText := some "first" })],
     [("AAB",
       { ticker := "AAB", entity := "aaa", exchange := "us",
         allMatches := [⟨"AAB", "aaa aab", "New York Stock Exchange", "NYSE",
           "Matches preferred exchange for us"⟩],
         selectionReason := "Matched preferred exchange for us" })]⟩
    ["AAB"] rfl
  exact ⟨h.1 "AAB" rfl, h.2 "AAB" rfl⟩

/-- C4: every failing run of `extractTickers` fails with exactly the
generic message "Failed to extract tickers" (so no partial group list can
accompany a failure), while the no-entities and no-matched-stocks cases
return an empty group list rather than an error. -/
theorem claim4_generic_error_normalization (st : ModuleState)
    (er : Except String (List ExtractedEntity)) (mr : Except String (List Stock))
    (g : Geography) (emsg : String) (es : List ExtractedEntity) :
    ((extractTickers st er mr g).2 = .error emsg → emsg = "Failed to extract tickers") ∧
    (er = .ok [] → (extractTickers st er mr g).2 = .ok []) ∧
    (er = .ok es → es ≠ [] → mr = .ok [] → (extractTickers st er mr g).2 = .ok []) := by
  refine ⟨?_, ?_, ?_⟩
  · intro h
    cases er with
    | error e =>
      simp only [extractTickers] at h
      injection h with h1
      exact h1.symm
    | ok entities =>
      simp only [extractTickers] at h
      split at h
      · cases h
      · cases mr with
        | error e =>
          dsimp only at h
          injection h with h1
          exact h1.symm
        | ok stocks =>
          dsimp only at h
          split at h
          · cases h
          · rcases hp : prioritizeByGeography st stocks g (some entities) with ⟨st', res⟩
            rw [hp] at h
            cases res with
            | error e2 =>
              injection h with h1
              exact h1.symm
            | ok pt => cases h
  · intro h
    subst h
    rfl
  · intro h hne hmr
    subst h
    subst hmr
    simp only [extractTickers]
    rw [if_neg (fun h0 => hne (List.length_eq_zero.mp h0))]
    rfl

/-- C4 witness: an oracle failure surfaces as the generic message, and the
no-entities and no-stocks runs both return empty group lists. -/
theorem claim4_generic_error_normalization_witness :
    ("Failed to extract tickers" : String) = "Failed to extract tickers" ∧
    (extractTickers ⟨[], []⟩ (.ok []) (.error "corpus down") Geography.us).2 = .ok [] ∧
    (extractTickers ⟨[], []⟩ (.ok [{ name := "x" }]) (.ok []) Geography.us).2 = .ok [] := by
  refine ⟨?_, ?_, ?_⟩
  · exact (claim4_generic_error_normalization ⟨[], []⟩ (.error "oracle down") (.ok [])
      Geography.us "Failed to extract tickers" []).1 rfl
  · exact (claim4_generic_error_normalization ⟨[], []⟩ (.ok []) (.error "corpus down")
      Geography.us "" []).2.1 rfl
  · exact (claim4_generic_error_normalization ⟨[], []⟩ (.ok [{ name := "x" }]) (.ok [])
      Geography.us "" [{ name := "x" }]).2.2 rfl (by decide) rfl

/-- C5: parsing "Alibaba [HKEX/NYSE]" yields exactly two entities named
"Alibaba", with exchanges "HKEX" then "NYSE" in that order, both carrying
the full bracketed token as originalText; and in general any token the
dual-exchange regex matches emits exactly two entities sharing name and
originalText, one per bracketed exchange. -/
theorem claim5_dual_exchange_bracket (tok n exchange1 exchange2 : String)
    (hm : matchMultiExchange tok = some (n, exchange1, exchange2)) :
    parseExtractedEntities "Alibaba [HKEX/NYSE]" =
      [{ name := "Alibaba", symbol := none, exchange := some "HKEX",
         originalText := some "Alibaba [HKEX/NYSE]" },
       { name := "Alibaba", symbol := none, exchange := some "NYSE",
         originalText := some "Alibaba [HKEX/NYSE]" }] ∧
    parseToken tok =
      [{ name := jsTrim n, symbol := none, exchange := some (jsTrim exchange1),
         originalText := some tok },
       { name := jsTrim n, symbol := none, exchange := some (jsTrim exchange2),
         originalText := some tok }] := by
  refine ⟨rfl, ?_⟩
  have hbr : '[' ∈ tok.data := matchMultiSearch_bracketMem hm
  have hne : ¬(tok = "") := ne_empty_of_bracketMem hbr
  have ht : isTickerToken tok = false := isTickerToken_false_of_bracketMem hbr
  simp only [parseToken]
  rw [if_neg hne, if_neg (by simp [ht]), hm]

/-- C5 witness: the general part applied to the literal Alibaba token. -/
theorem claim5_dual_exchange_bracket_witness :
    parseToken "Alibaba [HKEX/NYSE]" =
      [{ name := jsTrim "Alibaba ", symbol := none, exchange := some (jsTrim "HKEX"),
         originalText := some "Alibaba [HKEX/NYSE]" },
       { name := jsTrim "Alibaba ", symbol := none, exchange := some (jsTrim "NYSE"),
         originalText := some "Alibaba [HKEX/NYSE]" }] :=
  (claim5_dual_exchange_bracket "Alibaba [HKEX/NYSE]" "Alibaba " "HKEX" "NYSE" rfl).2

/-- C6: `isStockFromExchange` is symmetric for the Hong Kong special case:
any stock whose exchangeShortName is "HKSE" matches the key "HKEX", and
any stock whose exchangeShortName is "HKEX" matches the key "HKSE". -/
theorem claim6_hk_exchange_symmetry (stock : Stock) :
    (stock.exchangeShortName = "HKSE" → isStockFromExchange stock "HKEX" = true) ∧
    (stock.exchangeShortName = "HKEX" → isStockFromExchange stock "HKSE" = true) := by
  constructor
  · intro h
    simp only [isStockFromExchange]
    rw [if_neg (by decide)]
    have hc : findCanonicalExchangeKey "HKEX" = some "HKEX" := rfl
    rw [hc]
    simp only [h]
    simp [exchangeSynonyms, EXCHANGE_MAPPINGS]
  · intro h
    simp only [isStockFromExchange]
    rw [if_neg (by decide)]
    have hc : findCanonicalExchangeKey "HKSE" = some "HKSE" := rfl
    rw [hc]
    simp only [h]
    simp [exchangeSynonyms, EXCHANGE_MAPPINGS]

/-- C6 witness: the symmetry applied to a concrete HKSE-listed stock. -/
theorem claim6_hk_exchange_symmetry_witness :
    isStockFromExchange ⟨"0005.HK", "x", "y", "HKSE", []⟩ "HKEX" = true :=
  (claim6_hk_exchange_symmetry ⟨"0005.HK", "x", "y", "HKSE", []⟩).1 rfl

/-- C7: in `matchStockSymbols` the per-entity collected-symbol set is
duplicate-free (so its size counts distinct symbols); when it already has
at least 3 symbols the fuzzy step is not run (the contribution does not
depend on the fuzzy oracle); when it has fewer than 3 the contribution is
exactly the direct matches followed by the fuzzy results minus
already-collected symbols. -/
theorem claim7_fuzzy_gating (stocks : List EnhancedStock) (entity : ExtractedEntity)
    (f g : String → List EnhancedStock → List EnhancedStock) :
    (directStep stocks entity).2.Nodup ∧
    (3 ≤ (directStep stocks entity).2.length →
      entityContribution f stocks entity = entityContribution g stocks entity) ∧
    ((directStep stocks entity).2.length < 3 →
      entityContribution f stocks entity =
        (directStep stocks entity).1 ++ (f entity.name stocks).filter
          (fun m => !((directStep stocks entity).2.any (fun x => x = m.symbol)))) := by
  refine ⟨directStep_snd_nodup stocks entity, ?_, ?_⟩
  · intro hge
    simp only [entityContribution]
    rw [if_neg (by omega), if_neg (by omega)]
  · intro hlt
    simp only [entityContribution]
    rw [if_pos hlt]

/-- C7 witness: over an empty corpus nothing is collected, so the fuzzy
step runs and its already-collected filter keeps everything the oracle
returns. -/
theorem claim7_fuzzy_gating_witness :
    entityContribution (fun _ _ => []) [] { name := "x" } =
      (directStep [] { name := "x" }).1 ++
        ((fun (_ : String) (_ : List EnhancedStock) => ([] : List EnhancedStock)) "x" []).filter
          (fun m => !((directStep [] { name := "x" }).2.any (fun x => x = m.symbol))) :=
  (claim7_fuzzy_gating [] { name := "x" } (fun _ _ => []) (fun _ _ => [])).2.2 (by decide)

/-- C8 (corrected, counterexample): the leading-zero-stripped variant is
not tried for every numeric name.  "0943" is purely numeric and its
stripped variant "943" is a substring of the symbol "X943", yet the
re-derivation predicate does not match, because the code strips zeros only
for names starting with "00". -/
theorem claim8_counterexample_stripped_variant :
    entityMatchesStock "0943" ⟨"X943", "zzz", "E", "E", []⟩ = false ∧
    isAllDigits "0943" = true ∧
    strIncludes (Stock.symbol ⟨"X943", "zzz", "E", "E", []⟩) (stripLeadingZeros "0943") = true := by
  refine ⟨rfl, rfl, rfl⟩

/-- C8 (corrected, amended theorem): a purely numeric entity name matches
any stock whose symbol contains it; the leading-zero-stripped variant is
additionally tried exactly when the name starts with "00", has length at
least 4 and strips to a non-empty string; and a numeric entity with no
re-derived candidate over a non-empty stock list is resolved through the
numeric fuzzy fallback with selection reason "Fuzzy match - no exact match
found". -/
theorem claim8_numeric_matching (name : String) (stock : Stock) (stocks : List Stock)
    (geography : Geography) (entity : ExtractedEntity) :
    (isAllDigits name = true → strIncludes stock.symbol name = true →
      entityMatchesStock name stock = true) ∧
    (isAllDigits name = true → strStartsWith name "00" = true → 4 ≤ name.length →
      ¬(stripLeadingZeros name = "") →
      strIncludes stock.symbol (stripLeadingZeros name) = true →
      entityMatchesStock name stock = true) ∧
    (stocks ≠ [] → isAllDigits (jsTrim (jsToLower entity.name)) = true →
      stocks.filter (entityMatchesStock (jsTrim (jsToLower entity.name))) = [] →
      ∃ t dbg, processEntity stocks geography entity = .ok (some (t, dbg)) ∧
        dbg.selectionReason = "Fuzzy match - no exact match found") := by
  refine ⟨?_, ?_, ?_⟩
  · intro hd hb
    simp [entityMatchesStock, hd, hb]
  · intro hd hsw h4 hne0 hstrip
    have hpos : 0 < (stripLeadingZeros name).length := str_length_pos_of_ne_empty hne0
    simp [entityMatchesStock, hd, hsw, h4, hpos, hstrip]
  · intro hstocks hdig hfil
    obtain ⟨f, rest, hs⟩ := jsSortBy_exists_cons
      (numFallbackCmp (jsTrim (jsToLower entity.name)) geography) hstocks
    refine ⟨f.symbol,
      { ticker := f.symbol, entity := entity.name,
        exchange := effExchange entity geography,
        allMatches := ((f :: rest).take 5).map (mkDebugMatch "Fuzzy match"),
        selectionReason := "Fuzzy match - no exact match found" }, ?_, rfl⟩
    simp only [processEntity]
    rw [if_pos (by rw [hfil]; rfl)]
    simp only [numericFallback]
    rw [if_pos (by rw [hdig]; simp [List.length_pos.mpr hstocks]), hs]
    simp [List.take_succ_cons]

/-- C8 witness: "00943" over a corpus with no matching symbol resolves via
the fuzzy fallback, and "943" matches a symbol containing it. -/
theorem claim8_numeric_matching_witness :
    entityMatchesStock "943" ⟨"X943", "zzz", "E", "E", []⟩ = true ∧
    (∃ t dbg, processEntity [⟨"XQ", "zzz", "E", "E", []⟩] Geography.hk
        { name := "00943", originalText := some "00943" } = .ok (some (t, dbg)) ∧
      dbg.selectionReason = "Fuzzy match - no exact match found") := by
  constructor
  · exact (claim8_numeric_matching "943" ⟨"X943", "zzz", "E", "E", []⟩ [] Geography.hk
      { name := "00943" }).1 rfl rfl
  · exact (claim8_numeric_matching "943" ⟨"X943", "zzz", "E", "E", []⟩
      [⟨"XQ", "zzz", "E", "E", []⟩] Geography.hk
      { name := "00943", originalText := some "00943" }).2.2 (by decide) rfl rfl

/-- C9: `prioritizeByGeography` is not total in the entity name: the entity
"(" has a matching candidate (its name occurs in the stock name "z(z"),
reaches the global word-boundary scoring, and the unescaped regex built
from the name fails to compile, so the call throws instead of returning a
ticker list (and the module maps are left reset). -/
theorem claim9_regex_not_total :
    prioritizeByGeography ⟨[], []⟩ [⟨"QQ", "z(z", "E", "E", []⟩] Geography.global
      (some [{ name := "(", originalText := some "(" }]) =
    (⟨[], []⟩, .error "SyntaxError: Invalid regular expression") := rfl

/-- C10: when two distinct entities ("aaa" from token "first", "aab" from
token "second") both select the ticker "AAB", the prioritized list holds
"AAB" twice, `tickerToEntityMap` keeps only the later entity (Map.set
overwrites), and `extractTickers` grouping attributes both occurrences to
the later entity's originalText "second", while "first" yields no group. -/
theorem claim10_duplicate_ticker_overwrite :
    extractTickers ⟨[], []⟩
      (.ok [{ name := "aaa", originalText := some "first" },
            { name := "aab", originalText := some "second" }])
      (.ok [⟨"AAB", "aaa aab", "New York Stock Exchange", "NYSE", []⟩]) Geography.us =
    (⟨[("AAB", { name := "aab", originalText := some "second" })],
      [("AAB",
        { ticker := "AAB", entity := "aab", exchange := "us",
          allMatches := [⟨"AAB", "aaa aab", "New York Stock Exchange", "NYSE",
            "Matches preferred exchange for us"⟩],
          selectionReason := "Matched preferred exchange for us" })]⟩,
     .ok [{ originalText := "second", tickers := ["AAB", "AAB"] }]) := rfl
